import Mathlib

/-! Verification of the ark-plonk core: the composer gate builders of
`src/constraint_system/arithmetic.rs`, the KZG10 SRS setup and trim of
`src/commitment_scheme/kzg10/srs.rs`, the logic widget quotient contribution of
`src/proof_system/widget/logic/proverkey.rs`, and the quotient polynomial
assembly of `src/constraint_system/standard/quotient_poly.rs`.
Field elements are a generic `Field F`; group elements and the widget
quotient-contribution callables are abstract parameters, since the underlying
algebra is an external capability of the crate. -/

namespace ArkPlonk

/-- A circuit variable: a stable dense index into the witness-value table. -/
abbrev Variable := Nat

/-- State of the standard composer.  Wire and selector columns are the vectors
of `StandardComposer` in the source; `variables` is the witness-value table
indexed by `Variable` (`add_input` appends to it); `perm` records the calls to
`perm.add_variables_to_map`.  The struct itself lives outside `src/` and is
reconstructed from the fields the gate builders touch and the data model of the
spec. -/
structure StandardComposer (F : Type) where
  vars : List F
  zero_var : Variable
  w_l : List Variable
  w_r : List Variable
  w_o : List Variable
  w_4 : List Variable
  q_m : List F
  q_l : List F
  q_r : List F
  q_o : List F
  q_c : List F
  q_4 : List F
  q_arith : List F
  q_range : List F
  q_logic : List F
  q_fixed_group_add : List F
  q_variable_group_add : List F
  public_inputs_sparse_store : List (Variable × F)
  perm : List (Variable × Variable × Variable × Variable × Nat)
  n : Nat

variable {F : Type} [Field F] [DecidableEq F]

/-- Lookup in the sparse public-input store (the `BTreeMap` of the source),
keyed by gate row index. -/
def storeLookup (store : List (Nat × F)) (row : Nat) : Option F :=
  (store.find? (fun p => p.1 == row)).map Prod.snd

/-- The `assert!(store.insert(n, pi).is_none())` idiom of the gate builders:
inserting a public input for a row that already has one aborts (`none`);
`pi = none` leaves the store unchanged. -/
def insertPI (store : List (Nat × F)) (row : Nat) : Option F → Option (List (Nat × F))
  | none => some store
  | some v =>
      if (storeLookup store row).isSome then none
      else some (store ++ [(row, v)])

/-- Modelled from the spec: `add_input(value)` allocates a fresh variable bound
to `value`, a stable index into the witness-value table, with no other
observable effect.  (The function body lives outside `src/`.) -/
def add_input (cs : StandardComposer F) (value : F) : StandardComposer F × Variable :=
  ({ cs with vars := cs.vars ++ [value] }, cs.vars.length)

/-- `big_add_gate`: appends one row with `q_m = 0`, `q_arith = 1` and the
non-arithmetic selectors zero; `d` defaults to the reserved zero variable;
recording a duplicate public input aborts.  In the source the vector pushes
precede the failing assert, which is unobservable on abort. -/
def big_add_gate (cs : StandardComposer F) (a b c : Variable) (dOpt : Option Variable)
    (q_l q_r q_o q_4 q_c : F) (pi : Option F) : Option (StandardComposer F × Variable) :=
  let d := dOpt.getD cs.zero_var
  match insertPI cs.public_inputs_sparse_store cs.n pi with
  | none => none
  | some store =>
      some ({ cs with
        w_l := cs.w_l ++ [a], w_r := cs.w_r ++ [b],
        w_o := cs.w_o ++ [c], w_4 := cs.w_4 ++ [d],
        q_m := cs.q_m ++ [0],
        q_l := cs.q_l ++ [q_l], q_r := cs.q_r ++ [q_r], q_o := cs.q_o ++ [q_o],
        q_c := cs.q_c ++ [q_c], q_4 := cs.q_4 ++ [q_4],
        q_arith := cs.q_arith ++ [1],
        q_range := cs.q_range ++ [0], q_logic := cs.q_logic ++ [0],
        q_fixed_group_add := cs.q_fixed_group_add ++ [0],
        q_variable_group_add := cs.q_variable_group_add ++ [0],
        public_inputs_sparse_store := store,
        perm := cs.perm ++ [(a, b, c, d, cs.n)],
        n := cs.n + 1 }, c)

/-- `add_gate`: width-3 wrapper over `big_add_gate` with `d` unset and
`q_4 = 0`. -/
def add_gate (cs : StandardComposer F) (a b c : Variable)
    (q_l q_r q_o q_c : F) (pi : Option F) : Option (StandardComposer F × Variable) :=
  big_add_gate cs a b c none q_l q_r q_o 0 q_c pi

/-- `big_mul_gate`: appends one row with `q_l = q_r = 0`, `q_arith = 1` and the
non-arithmetic selectors zero. -/
def big_mul_gate (cs : StandardComposer F) (a b c : Variable) (dOpt : Option Variable)
    (q_m q_o q_c q_4 : F) (pi : Option F) : Option (StandardComposer F × Variable) :=
  let d := dOpt.getD cs.zero_var
  match insertPI cs.public_inputs_sparse_store cs.n pi with
  | none => none
  | some store =>
      some ({ cs with
        w_l := cs.w_l ++ [a], w_r := cs.w_r ++ [b],
        w_o := cs.w_o ++ [c], w_4 := cs.w_4 ++ [d],
        q_l := cs.q_l ++ [0], q_r := cs.q_r ++ [0],
        q_m := cs.q_m ++ [q_m], q_o := cs.q_o ++ [q_o],
        q_c := cs.q_c ++ [q_c], q_4 := cs.q_4 ++ [q_4],
        q_arith := cs.q_arith ++ [1],
        q_range := cs.q_range ++ [0], q_logic := cs.q_logic ++ [0],
        q_fixed_group_add := cs.q_fixed_group_add ++ [0],
        q_variable_group_add := cs.q_variable_group_add ++ [0],
        public_inputs_sparse_store := store,
        perm := cs.perm ++ [(a, b, c, d, cs.n)],
        n := cs.n + 1 }, c)

/-- `mul_gate`: width-3 wrapper over `big_mul_gate` with `d` unset and
`q_4 = 0`. -/
def mul_gate (cs : StandardComposer F) (a b c : Variable)
    (q_m q_o q_c : F) (pi : Option F) : Option (StandardComposer F × Variable) :=
  big_mul_gate cs a b c none q_m q_o q_c 0 pi

/-- `big_arith_gate`: appends one row with every arithmetic selector supplied,
`q_arith = 1` and the non-arithmetic selectors zero. -/
def big_arith_gate (cs : StandardComposer F) (a b c : Variable) (dOpt : Option Variable)
    (q_m q_l q_r q_o q_c q_4 : F) (pi : Option F) : Option (StandardComposer F × Variable) :=
  let d := dOpt.getD cs.zero_var
  match insertPI cs.public_inputs_sparse_store cs.n pi with
  | none => none
  | some store =>
      some ({ cs with
        w_l := cs.w_l ++ [a], w_r := cs.w_r ++ [b],
        w_o := cs.w_o ++ [c], w_4 := cs.w_4 ++ [d],
        q_m := cs.q_m ++ [q_m], q_o := cs.q_o ++ [q_o],
        q_c := cs.q_c ++ [q_c], q_4 := cs.q_4 ++ [q_4],
        q_l := cs.q_l ++ [q_l], q_r := cs.q_r ++ [q_r],
        q_arith := cs.q_arith ++ [1],
        q_range := cs.q_range ++ [0], q_logic := cs.q_logic ++ [0],
        q_fixed_group_add := cs.q_fixed_group_add ++ [0],
        q_variable_group_add := cs.q_variable_group_add ++ [0],
        public_inputs_sparse_store := store,
        perm := cs.perm ++ [(a, b, c, d, cs.n)],
        n := cs.n + 1 }, c)

/-- `big_add` computing wrapper: resolves witness values, computes the output
with `q_o = -1`, allocates it via `add_input`, then calls `big_add_gate`.
The `HashMap` index of the source panics on an unbound variable, modelled by
`none`. -/
def big_add (cs : StandardComposer F) (q_l_a q_r_b : F × Variable)
    (q_4_d : Option (F × Variable)) (q_c : F) (pi : Option F) :
    Option (StandardComposer F × Variable) :=
  let q4d := q_4_d.getD (0, cs.zero_var)
  let q_4 := q4d.1
  let d := q4d.2
  let q_l := q_l_a.1
  let a := q_l_a.2
  let q_r := q_r_b.1
  let b := q_r_b.2
  let q_o : F := -1
  match cs.vars.get? a, cs.vars.get? b, cs.vars.get? d with
  | some a_eval, some b_eval, some d_eval =>
      let c_eval := q_l * a_eval + q_r * b_eval + q_4 * d_eval + q_c + pi.getD 0
      let p := add_input cs c_eval
      big_add_gate p.1 a b p.2 (some d) q_l q_r q_o q_4 q_c pi
  | _, _, _ => none

/-- `add` computing wrapper: `big_add` with the fourth wire unset. -/
def add (cs : StandardComposer F) (q_l_a q_r_b : F × Variable) (q_c : F)
    (pi : Option F) : Option (StandardComposer F × Variable) :=
  big_add cs q_l_a q_r_b none q_c pi

/-- `big_mul` computing wrapper: output `q_m*a*b + q_4*d + q_c + pi` with
`q_o = -1`, then `big_mul_gate`. -/
def big_mul (cs : StandardComposer F) (q_m : F) (a b : Variable)
    (q_4_d : Option (F × Variable)) (q_c : F) (pi : Option F) :
    Option (StandardComposer F × Variable) :=
  let q_o : F := -1
  let q4d := q_4_d.getD (0, cs.zero_var)
  let q_4 := q4d.1
  let d := q4d.2
  match cs.vars.get? a, cs.vars.get? b, cs.vars.get? d with
  | some a_eval, some b_eval, some d_eval =>
      let c_eval := q_m * a_eval * b_eval + q_4 * d_eval + q_c + pi.getD 0
      let p := add_input cs c_eval
      big_mul_gate p.1 a b p.2 (some d) q_m q_o q_c q_4 pi
  | _, _, _ => none

/-- `mul` computing wrapper: `big_mul` with the fourth wire unset. -/
def mul (cs : StandardComposer F) (q_m : F) (a b : Variable) (q_c : F)
    (pi : Option F) : Option (StandardComposer F × Variable) :=
  big_mul cs q_m a b none q_c pi

/-- `big_arith` computing wrapper: output
`q_m*a*b + q_l*a + q_r*b + q_4*d + q_c + pi` with `q_o = -1`, then
`big_arith_gate`. -/
def big_arith (cs : StandardComposer F) (q_m : F) (a b : Variable) (q_l q_r : F)
    (q_4_d : Option (F × Variable)) (q_c : F) (pi : Option F) :
    Option (StandardComposer F × Variable) :=
  let q4d := q_4_d.getD (0, cs.zero_var)
  let q_4 := q4d.1
  let d := q4d.2
  match cs.vars.get? a, cs.vars.get? b, cs.vars.get? d with
  | some a_eval, some b_eval, some d_eval =>
      let c_eval := q_m * a_eval * b_eval + q_l * a_eval + q_r * b_eval
        + q_4 * d_eval + q_c + pi.getD 0
      let p := add_input cs c_eval
      big_arith_gate p.1 a b p.2 (some d) q_m q_l q_r (-1) q_c q_4 pi
  | _, _, _ => none

/-- One gate-construction call of the arithmetic family, carrying its
arguments. -/
inductive GateCall (F : Type) where
  | addGate (a b c : Variable) (q_l q_r q_o q_c : F) (pi : Option F)
  | bigAddGate (a b c : Variable) (d : Option Variable) (q_l q_r q_o q_4 q_c : F) (pi : Option F)
  | mulGate (a b c : Variable) (q_m q_o q_c : F) (pi : Option F)
  | bigMulGate (a b c : Variable) (d : Option Variable) (q_m q_o q_c q_4 : F) (pi : Option F)
  | bigArithGate (a b c : Variable) (d : Option Variable) (q_m q_l q_r q_o q_c q_4 : F) (pi : Option F)

/-- Dispatch a single gate-construction call to the corresponding builder. -/
def applyGateCall (cs : StandardComposer F) : GateCall F → Option (StandardComposer F × Variable)
  | .addGate a b c ql qr qo qc pi => add_gate cs a b c ql qr qo qc pi
  | .bigAddGate a b c d ql qr qo q4 qc pi => big_add_gate cs a b c d ql qr qo q4 qc pi
  | .mulGate a b c qm qo qc pi => mul_gate cs a b c qm qo qc pi
  | .bigMulGate a b c d qm qo qc q4 pi => big_mul_gate cs a b c d qm qo qc q4 pi
  | .bigArithGate a b c d qm ql qr qo qc q4 pi => big_arith_gate cs a b c d qm ql qr qo qc q4 pi

/-- Run a sequence of gate-construction calls, aborting when one aborts. -/
def runGateCalls (cs : StandardComposer F) : List (GateCall F) → Option (StandardComposer F)
  | [] => some cs
  | g :: gs =>
      match applyGateCall cs g with
      | none => none
      | some p => runGateCalls p.1 gs

/-- The public-input argument carried by a gate-construction call. -/
def gatePI : GateCall F → Option F
  | .addGate _ _ _ _ _ _ _ pi => pi
  | .bigAddGate _ _ _ _ _ _ _ _ _ pi => pi
  | .mulGate _ _ _ _ _ _ pi => pi
  | .bigMulGate _ _ _ _ _ _ _ _ pi => pi
  | .bigArithGate _ _ _ _ _ _ _ _ _ _ pi => pi

/-- All four wire columns and all eleven selector columns have length `m`, and
the gate counter `n` equals `m`. -/
def colsOk (cs : StandardComposer F) (m : Nat) : Prop :=
  cs.w_l.length = m ∧ cs.w_r.length = m ∧ cs.w_o.length = m ∧ cs.w_4.length = m ∧
  cs.q_m.length = m ∧ cs.q_l.length = m ∧ cs.q_r.length = m ∧ cs.q_o.length = m ∧
  cs.q_c.length = m ∧ cs.q_4.length = m ∧ cs.q_arith.length = m ∧
  cs.q_range.length = m ∧ cs.q_logic.length = m ∧
  cs.q_fixed_group_add.length = m ∧ cs.q_variable_group_add.length = m ∧
  cs.n = m

/-- The public-input store has at most one entry per row. -/
def storeKeysNodup (store : List (Nat × F)) : Prop :=
  (store.map Prod.fst).Nodup

/-! ## KZG10 SRS: `src/commitment_scheme/kzg10/srs.rs` -/

/-- Modelled from the spec: the error enumeration of `crate::error` (outside
`src/`), restricted to the two degree conditions named by the spec. -/
inductive KzgError where
  | DegreeIsZero
  | TruncatedDegreeTooLarge
  deriving DecidableEq

/-- Modelled from the spec: `util::powers_of` (outside `src/`) computes the
powers of `beta` from exponent `0` up to and including `max_degree`. -/
def powers_of (beta : F) (max_degree : Nat) : List F :=
  (List.range (max_degree + 1)).map (fun i => beta ^ i)

/-- Key used to generate proofs: the powers of the secret scalar applied to the
first-group generator. -/
structure CommitKey (G1 : Type) where
  powers_of_g : List G1

/-- Key used to verify proofs: the first-group generator, the second-group
generator, and the secret-scaled second-group generator. -/
structure OpeningKey (G1 G2 : Type) where
  g : G1
  h : G2
  beta_h : G2

/-- The public parameters (structured reference string). -/
structure PublicParameters (G1 G2 : Type) where
  commit_key : CommitKey G1
  opening_key : OpeningKey G1 G2

/-- `PublicParameters::setup`.  The randomness source is external: the drawn
secret scalar `beta` and generators `g`, `h` are parameters, as are the scalar
multiplications `gsmul`, `hsmul` of the two groups.  Batch normalization of the
projective points does not change the group elements and is not modelled. -/
def PublicParameters.setup {G1 G2 : Type} (gsmul : F → G1 → G1) (hsmul : F → G2 → G2)
    (max_degree : Nat) (beta : F) (g : G1) (h : G2) :
    Except KzgError (PublicParameters G1 G2) :=
  if max_degree < 1 then .error .DegreeIsZero
  else
    let powers_of_beta := powers_of beta max_degree
    let powers_of_g := powers_of_beta.map (fun s => gsmul s g)
    let beta_h := hsmul beta h
    .ok { commit_key := { powers_of_g := powers_of_g },
          opening_key := { g := g, h := h, beta_h := beta_h } }

/-- Modelled from the spec: `CommitKey::max_degree` (outside `src/`) is
`len(powers_of_g) - 1`. -/
def CommitKey.maxDegreeOf {G1 : Type} (ck : CommitKey G1) : Nat :=
  ck.powers_of_g.length - 1

/-- Modelled from the spec: `CommitKey::truncate` (outside `src/`) fails with a
degree error if the truncated degree exceeds the configured maximum and
otherwise returns the length-`(truncated_degree+1)` prefix of `powers_of_g`. -/
def CommitKey.truncate {G1 : Type} (ck : CommitKey G1) (truncated_degree : Nat) :
    Except KzgError (CommitKey G1) :=
  if truncated_degree > ck.maxDegreeOf then .error .TruncatedDegreeTooLarge
  else .ok { powers_of_g := ck.powers_of_g.take (truncated_degree + 1) }

/-- `PublicParameters::trim`: truncate the commit key, pair it with a clone of
the unmodified opening key. -/
def PublicParameters.trim {G1 G2 : Type} (pp : PublicParameters G1 G2)
    (truncated_degree : Nat) :
    Except KzgError (CommitKey G1 × OpeningKey G1 G2) :=
  match pp.commit_key.truncate truncated_degree with
  | .error e => .error e
  | .ok ck => .ok (ck, pp.opening_key)

/-! ## Logic widget: `src/proof_system/widget/logic/proverkey.rs` -/

/-- The logic widget prover key: the evaluation forms of the `q_c` and
`q_logic` selector polynomials (the coefficient forms are not read by
`compute_quotient_i`). -/
structure LogicProverKey (F : Type) where
  q_c : List F
  q_logic : List F

/-- `ProverKey::compute_quotient_i` of the logic widget.  `delta` and
`delta_xor_and` live in a sibling module outside `src/` and are abstract
parameters; `square()` is written as self-multiplication as in the source. -/
def LogicProverKey.compute_quotient_i (pk : LogicProverKey F)
    (delta : F → F) (delta_xor_and : F → F → F → F → F → F)
    (index : Nat) (logic_separation_challenge : F)
    (w_l_i w_l_i_next w_r_i w_r_i_next w_o_i w_4_i w_4_i_next : F) : F :=
  let four : F := 4
  let q_logic_i := pk.q_logic.getD index 0
  let q_c_i := pk.q_c.getD index 0
  let kappa := logic_separation_challenge * logic_separation_challenge
  let kappa_sq := kappa * kappa
  let kappa_cu := kappa_sq * kappa
  let kappa_qu := kappa_cu * kappa
  let a := w_l_i_next - four * w_l_i
  let c_0 := delta a
  let b := w_r_i_next - four * w_r_i
  let c_1 := delta b * kappa
  let d := w_4_i_next - four * w_4_i
  let c_2 := delta d * kappa_sq
  let w := w_o_i
  let c_3 := (w - a * b) * kappa_cu
  let c_4 := delta_xor_and a b w d q_c_i * kappa_qu
  q_logic_i * (c_3 + c_0 + c_1 + c_2 + c_4) * logic_separation_challenge

/-! ## Quotient polynomial: `src/constraint_system/standard/quotient_poly.rs` -/

/-- `Scalar::invert` returns `none` exactly on zero. -/
def invert (x : F) : Option F :=
  if x = 0 then none else some x⁻¹

/-- The four sequential `push` calls appending the first four evaluations of a
coset-evaluation vector to its end.  Vector indexing panics out of bounds in
the source; callers pass vectors of length `4n ≥ 4`, where `getD` agrees with
it. -/
def push_first_four (xs : List F) : List F :=
  let xs1 := xs ++ [xs.getD 0 0]
  let xs2 := xs1 ++ [xs1.getD 1 0]
  let xs3 := xs2 ++ [xs2.getD 2 0]
  xs3 ++ [xs3.getD 3 0]

/-- The per-index parallel map of the source, sequentialised; an aborting row
(`unwrap` on a failed inversion) aborts the whole computation. -/
def optionMapRange {α : Type} (f : Nat → Option α) : Nat → Option (List α)
  | 0 => some []
  | n + 1 =>
      match optionMapRange f n, f n with
      | some xs, some x => some (xs ++ [x])
      | _, _ => none

/-- One row of `compute_circuit_satisfiability_equation`: the contributions of
the arithmetic and range widgets plus the public-input evaluation, multiplied
by the inverted vanishing-polynomial value. -/
def satisfiabilityRow (arith_cq : Nat → F → F → F → F → F)
    (range_cq : Nat → F → F → F → F → F → F)
    (wl_eval_4n wr_eval_4n wo_eval_4n w4_eval_4n pi_eval_4n v_h : List F)
    (i : Nat) : Option F :=
  let wl := wl_eval_4n.getD i 0
  let wr := wr_eval_4n.getD i 0
  let wo := wo_eval_4n.getD i 0
  let w4 := w4_eval_4n.getD i 0
  let w4_next := w4_eval_4n.getD (i + 4) 0
  let pi := pi_eval_4n.getD i 0
  match invert (v_h.getD i 0) with
  | none => none
  | some v_h_i =>
      let a := arith_cq i wl wr wo w4
      let b := range_cq i wl wr wo w4 w4_next
      some ((a + b + pi) * v_h_i)

/-- `compute_circuit_satisfiability_equation`.  The coset FFTs are external
capabilities: the function receives the `4n`-length coset-evaluation vectors of
the wire, public-input and vanishing polynomials, and the widget
`compute_quotient` callables of the preprocessed circuit, and itself appends
the wrap-around entries to the fourth-wire vector. -/
def compute_circuit_satisfiability_equation (size4n : Nat)
    (arith_cq : Nat → F → F → F → F → F)
    (range_cq : Nat → F → F → F → F → F → F)
    (wl_eval_4n wr_eval_4n wo_eval_4n w4_eval pi_eval_4n v_h : List F) :
    Option (List F) :=
  let w4_eval_4n := push_first_four w4_eval
  optionMapRange
    (satisfiabilityRow arith_cq range_cq wl_eval_4n wr_eval_4n wo_eval_4n
      w4_eval_4n pi_eval_4n v_h) size4n

/-- `quotient_poly::compute`.  The grand-product quotient passes `t_2`, `t_3`
(functions of the wrap-around-extended `z` evaluations) and `t_4` live outside
`src/` and are abstract parameters, as is the final inverse coset FFT; `v_h`
is the vanishing-polynomial coset evaluation freshly computed inside the
satisfiability pass and `v_h_coset_4n` the cached copy of the preprocessed
circuit. -/
def computeQuotient (size4n : Nat)
    (arith_cq : Nat → F → F → F → F → F)
    (range_cq : Nat → F → F → F → F → F → F)
    (gp_identity gp_copy : List F → List F) (t_4 : List F)
    (z_eval_4n : List F)
    (wl_eval_4n wr_eval_4n wo_eval_4n w4_eval pi_eval_4n : List F)
    (v_h v_h_coset_4n : List F) : Option (List F) :=
  let z_ext := push_first_four z_eval_4n
  let t_2 := gp_identity z_ext
  let t_3 := gp_copy z_ext
  match compute_circuit_satisfiability_equation size4n arith_cq range_cq
      wl_eval_4n wr_eval_4n wo_eval_4n w4_eval pi_eval_4n v_h with
  | none => none
  | some t_1 =>
      optionMapRange (fun i =>
        match invert (v_h_coset_4n.getD i 0) with
        | none => none
        | some dinv =>
            some (t_1.getD i 0 +
              (t_2.getD i 0 + t_3.getD i 0 + t_4.getD i 0) * dinv)) size4n

/-- Follows the words of the spec, for comparison with the source: the per-row
satisfiability numerator as the sum of the contributions of every enabled gate
widget — Arithmetic, Range, Logic and Curve-addition — plus the public-input
evaluation. -/
def specFourWidgetNumerator (arith range_c logic curve pi : F) : F :=
  arith + range_c + logic + curve + pi

/-- Concrete composer over the rationals used to evaluate the theorems on a
closed input: witness table `[0, 4, 5, 9]` with the reserved zero variable at
index `0`, all columns empty. -/
def csW : StandardComposer ℚ :=
  { vars := [0, 4, 5, 9], zero_var := 0,
    w_l := [], w_r := [], w_o := [], w_4 := [],
    q_m := [], q_l := [], q_r := [], q_o := [], q_c := [], q_4 := [],
    q_arith := [], q_range := [], q_logic := [],
    q_fixed_group_add := [], q_variable_group_add := [],
    public_inputs_sparse_store := [], perm := [], n := 0 }

/-- `csW` with a public input already recorded for row `0`. -/
def csP : StandardComposer ℚ :=
  { csW with public_inputs_sparse_store := [(0, 1)] }

/-- A concrete two-call gate sequence over the rationals. -/
def gcallsW : List (GateCall ℚ) :=
  [GateCall.addGate 1 2 0 1 1 1 0 none, GateCall.mulGate 1 2 0 1 1 0 none]

/-- The composer resulting from running `gcallsW` on `csW`. -/
def csRun : StandardComposer ℚ :=
  (runGateCalls csW gcallsW).getD csW

/-- A concrete single gate-construction call. -/
def gateW : GateCall ℚ :=
  GateCall.addGate 1 2 0 1 1 1 0 none

/-- The composer resulting from applying `gateW` to `csW`. -/
def csG : StandardComposer ℚ :=
  ((applyGateCall csW gateW).getD (csW, 0)).1

/-- The composer resulting from a successful `big_add_gate` with a public
input on the fresh row `0` of `csW`. -/
def csF : StandardComposer ℚ :=
  ((big_add_gate csW 1 2 0 none 1 1 1 0 0 (some 7)).getD (csW, 0)).1

/-! ## Theorems -/

/-- C3: the logic widget row contribution equals
`q_logic[index] * (c0 + c1 + c2 + c3 + c4) * separation_challenge` with
`kappa = separation_challenge ^ 2`, `a = w_l_next - 4*w_l`,
`b = w_r_next - 4*w_r`, `d = w_4_next - 4*w_4`, `w = w_o`, `c0 = delta a`,
`c1 = delta b * kappa`, `c2 = delta d * kappa^2`, `c3 = (w - a*b) * kappa^3`
and `c4 = delta_xor_and a b w d q_c[index] * kappa^4`. -/
theorem logic_compute_quotient_i_formula (pk : LogicProverKey F)
    (delta : F → F) (delta_xor_and : F → F → F → F → F → F) (index : Nat)
    (s w_l w_l_next w_r w_r_next w_o w_4 w_4_next : F) :
    pk.compute_quotient_i delta delta_xor_and index s
        w_l w_l_next w_r w_r_next w_o w_4 w_4_next
      = pk.q_logic.getD index 0 *
          (delta (w_l_next - 4 * w_l)
            + delta (w_r_next - 4 * w_r) * s ^ 2
            + delta (w_4_next - 4 * w_4) * (s ^ 2) ^ 2
            + (w_o - (w_l_next - 4 * w_l) * (w_r_next - 4 * w_r)) * (s ^ 2) ^ 3
            + delta_xor_and (w_l_next - 4 * w_l) (w_r_next - 4 * w_r) w_o
                (w_4_next - 4 * w_4) (pk.q_c.getD index 0) * (s ^ 2) ^ 4) * s := by
  simp only [LogicProverKey.compute_quotient_i]
  ring

/-- C5: for `max_degree ≥ 1` setup succeeds, its commit key holds exactly
`max_degree + 1` group elements, the `i`-th being the generator scaled by the
`i`-th power of the secret scalar; for `max_degree = 0` setup fails with
`DegreeIsZero`. -/
theorem setup_commit_key_powers {G1 G2 : Type} (gsmul : F → G1 → G1)
    (hsmul : F → G2 → G2) (max_degree : Nat) (beta : F) (g : G1) (h : G2)
    (hdeg : 1 ≤ max_degree) :
    (∃ pp, PublicParameters.setup gsmul hsmul max_degree beta g h = .ok pp
        ∧ pp.commit_key.powers_of_g.length = max_degree + 1
        ∧ ∀ i, i ≤ max_degree →
            pp.commit_key.powers_of_g.get? i = some (gsmul (beta ^ i) g))
    ∧ PublicParameters.setup gsmul hsmul 0 beta g h = .error .DegreeIsZero := by
  constructor
  · refine ⟨⟨⟨(powers_of beta max_degree).map (fun s => gsmul s g)⟩,
        ⟨g, h, hsmul beta h⟩⟩, ?_, ?_, ?_⟩
    · simp only [PublicParameters.setup, if_neg (by omega : ¬ max_degree < 1)]
    · simp [powers_of]
    · intro i hi
      simp only [powers_of]
      rw [List.get?_map, List.get?_map,
        List.get?_range (by omega : i < max_degree + 1)]
      rfl
  · simp [PublicParameters.setup]

/-- C5 witness: `setup` at `max_degree = 2`, secret scalar `2`, generators `3`
and `5` over the rationals with multiplication as the scalar action. -/
theorem setup_commit_key_powers_witness :
    (∃ pp, PublicParameters.setup (fun s x => s * x) (fun s x => s * x)
          2 (2 : ℚ) 3 5 = .ok pp
        ∧ pp.commit_key.powers_of_g.length = 2 + 1
        ∧ ∀ i, i ≤ 2 →
            pp.commit_key.powers_of_g.get? i = some ((2 : ℚ) ^ i * 3))
    ∧ PublicParameters.setup (fun s x => s * x) (fun s x => s * x)
        0 (2 : ℚ) 3 5 = .error .DegreeIsZero :=
  setup_commit_key_powers _ _ 2 2 3 5 (by decide)

/-- C6: for a nonempty commit key and `d` at most the configured maximum,
`trim d` returns the element-wise identical length-`(d+1)` prefix of
`powers_of_g` with the opening key unchanged; for `d` beyond the maximum it
fails with a degree error. -/
theorem trim_prefix_opening_unchanged {G1 G2 : Type}
    (pp : PublicParameters G1 G2) (d : Nat)
    (hne : 1 ≤ pp.commit_key.powers_of_g.length) :
    (d ≤ pp.commit_key.maxDegreeOf →
      ∃ ck, pp.trim d = .ok (ck, pp.opening_key)
        ∧ ck.powers_of_g.length = d + 1
        ∧ ∀ i, i ≤ d → ck.powers_of_g.get? i = pp.commit_key.powers_of_g.get? i)
    ∧ (pp.commit_key.maxDegreeOf < d →
        pp.trim d = .error .TruncatedDegreeTooLarge) := by
  constructor
  · intro hd
    have hlen : d + 1 ≤ pp.commit_key.powers_of_g.length := by
      have := pp.commit_key.maxDegreeOf
      unfold CommitKey.maxDegreeOf at hd
      omega
    refine ⟨⟨pp.commit_key.powers_of_g.take (d + 1)⟩, ?_, ?_, ?_⟩
    · simp only [PublicParameters.trim, CommitKey.truncate,
        if_neg (by omega : ¬ d > pp.commit_key.maxDegreeOf)]
    · simp only [List.length_take]
      omega
    · intro i hi
      exact List.get?_take (by omega)
  · intro hd
    simp only [PublicParameters.trim, CommitKey.truncate, if_pos (by omega : d > pp.commit_key.maxDegreeOf)]

/-- C6 witness: trimming a concrete three-element key to degree `1`. -/
theorem trim_prefix_opening_unchanged_witness :
    ((1 : Nat) ≤ (PublicParameters.mk (CommitKey.mk [(3 : ℚ), 6, 12])
        (OpeningKey.mk (3 : ℚ) (5 : ℚ) 10)).commit_key.maxDegreeOf →
      ∃ ck, (PublicParameters.mk (CommitKey.mk [(3 : ℚ), 6, 12])
            (OpeningKey.mk (3 : ℚ) (5 : ℚ) 10)).trim 1
          = .ok (ck, OpeningKey.mk (3 : ℚ) (5 : ℚ) 10)
        ∧ ck.powers_of_g.length = 1 + 1
        ∧ ∀ i, i ≤ 1 → ck.powers_of_g.get? i = [(3 : ℚ), 6, 12].get? i)
    ∧ ((PublicParameters.mk (CommitKey.mk [(3 : ℚ), 6, 12])
          (OpeningKey.mk (3 : ℚ) (5 : ℚ) 10)).commit_key.maxDegreeOf < 1 →
        (PublicParameters.mk (CommitKey.mk [(3 : ℚ), 6, 12])
            (OpeningKey.mk (3 : ℚ) (5 : ℚ) 10)).trim 1
          = .error .TruncatedDegreeTooLarge) :=
  trim_prefix_opening_unchanged _ 1 (by decide)

/-- C7: appending the first four entries of a length-`4n` coset-evaluation
vector (as done for the fourth-wire and `z` vectors) yields length `4n + 4`,
entry `4n + j` equal to entry `j` for `j < 4`, and makes every next-row lookup
at `i + 4` with `i < 4n` in bounds. -/
theorem push_first_four_wraparound (xs : List F) (n : Nat)
    (hlen : xs.length = 4 * n) (hn : 1 ≤ n) :
    (push_first_four xs).length = 4 * n + 4
    ∧ (∀ j, j < 4 → (push_first_four xs).getD (4 * n + j) 0 = xs.getD j 0)
    ∧ (∀ i, i < 4 * n → i + 4 < (push_first_four xs).length) := by
  have h4 : 4 ≤ xs.length := by omega
  have key : push_first_four xs
      = xs ++ [xs.getD 0 0, xs.getD 1 0, xs.getD 2 0, xs.getD 3 0] := by
    match xs, h4 with
    | a :: b :: c :: d :: t, _ =>
        simp [push_first_four, List.getD]
  refine ⟨?_, ?_, ?_⟩
  · simp [key, hlen]
  · intro j hj
    rw [key, List.getD_append_right _ _ _ _ (by omega)]
    rw [hlen]
    interval_cases j <;> simp
  · intro i hi
    simp [key, hlen]
    omega

/-- C7 witness: the vector `[1, 2, 3, 4]` with `n = 1`. -/
theorem push_first_four_wraparound_witness :
    (push_first_four [(1 : ℚ), 2, 3, 4]).length = 4 * 1 + 4
    ∧ (∀ j, j < 4 →
        (push_first_four [(1 : ℚ), 2, 3, 4]).getD (4 * 1 + j) 0
          = [(1 : ℚ), 2, 3, 4].getD j 0)
    ∧ (∀ i, i < 4 * 1 → i + 4 < (push_first_four [(1 : ℚ), 2, 3, 4]).length) :=
  push_first_four_wraparound _ 1 (by decide) (by decide)

theorem optionMapRange_isSome {α : Type} (f : Nat → Option α) (n : Nat)
    (h : ∀ i, i < n → (f i).isSome) : (optionMapRange f n).isSome := by
  induction n with
  | zero => simp [optionMapRange]
  | succ m ih =>
      obtain ⟨xs, hxs⟩ := Option.isSome_iff_exists.mp (ih (fun i hi => h i (by omega)))
      obtain ⟨x, hx⟩ := Option.isSome_iff_exists.mp (h m (by omega))
      unfold optionMapRange
      rw [hxs, hx]
      rfl

theorem optionMapRange_eq_none {α : Type} (f : Nat → Option α) (n i : Nat)
    (hi : i < n) (hf : f i = none) : optionMapRange f n = none := by
  induction n with
  | zero => omega
  | succ m ih =>
      unfold optionMapRange
      rcases Nat.lt_succ_iff_lt_or_eq.mp hi with hm | rfl
      · rw [ih hm]
      · rw [hf]
        cases optionMapRange f i <;> rfl

theorem optionMapRange_getD {α : Type} (f : Nat → Option α) (dflt : α)
    (n : Nat) (xs : List α) (h : optionMapRange f n = some xs) :
    xs.length = n ∧ ∀ i, i < n → f i = some (xs.getD i dflt) := by
  induction n generalizing xs with
  | zero =>
      simp only [optionMapRange, Option.some.injEq] at h
      subst h
      simp
  | succ m ih =>
      unfold optionMapRange at h
      cases hrec : optionMapRange f m with
      | none => rw [hrec] at h; exact absurd h (by simp)
      | some ys =>
          cases hfm : f m with
          | none => rw [hrec, hfm] at h; exact absurd h (by simp)
          | some x =>
              rw [hrec, hfm] at h
              simp only [Option.some.injEq] at h
              subst h
              obtain ⟨hlen, hval⟩ := ih ys hrec
              refine ⟨by simp [hlen], ?_⟩
              intro i hi
              rcases Nat.lt_succ_iff_lt_or_eq.mp hi with him | rfl
              · rw [List.getD_append _ _ _ _ (by omega)]
                exact hval i him
              · have hx : (ys ++ [x]).getD i dflt = x := by
                  rw [← hlen, List.getD_append_right _ _ _ _ (le_refl _)]
                  simp
                rw [hx]
                exact hfm

/-- C8: if the vanishing-polynomial coset evaluations are nonzero at every
extended-domain index, every per-row division in the quotient computation
succeeds; if some evaluation is zero at a reachable index, both the
satisfiability pass and the whole quotient computation abort with no result. -/
theorem quotient_division_safety (size4n : Nat)
    (arith_cq : Nat → F → F → F → F → F)
    (range_cq : Nat → F → F → F → F → F → F)
    (gp_identity gp_copy : List F → List F) (t_4 : List F)
    (z_eval_4n wl_eval_4n wr_eval_4n wo_eval_4n w4_eval pi_eval_4n : List F)
    (v_h v_h_coset_4n : List F) :
    ((∀ i, i < size4n → v_h.getD i 0 ≠ 0) →
      (∀ i, i < size4n → v_h_coset_4n.getD i 0 ≠ 0) →
        (compute_circuit_satisfiability_equation size4n arith_cq range_cq
          wl_eval_4n wr_eval_4n wo_eval_4n w4_eval pi_eval_4n v_h).isSome
        ∧ (computeQuotient size4n arith_cq range_cq gp_identity gp_copy t_4
            z_eval_4n wl_eval_4n wr_eval_4n wo_eval_4n w4_eval pi_eval_4n
            v_h v_h_coset_4n).isSome)
    ∧ (∀ i, i < size4n → v_h.getD i 0 = 0 →
        compute_circuit_satisfiability_equation size4n arith_cq range_cq
          wl_eval_4n wr_eval_4n wo_eval_4n w4_eval pi_eval_4n v_h = none
        ∧ computeQuotient size4n arith_cq range_cq gp_identity gp_copy t_4
            z_eval_4n wl_eval_4n wr_eval_4n wo_eval_4n w4_eval pi_eval_4n
            v_h v_h_coset_4n = none)
    ∧ (∀ i, i < size4n → v_h_coset_4n.getD i 0 = 0 →
        computeQuotient size4n arith_cq range_cq gp_identity gp_copy t_4
          z_eval_4n wl_eval_4n wr_eval_4n wo_eval_4n w4_eval pi_eval_4n
          v_h v_h_coset_4n = none) := by
  have hrow : ∀ i, v_h.getD i 0 ≠ 0 →
      (satisfiabilityRow arith_cq range_cq wl_eval_4n wr_eval_4n wo_eval_4n
        (push_first_four w4_eval) pi_eval_4n v_h i).isSome := by
    intro i hv
    simp only [satisfiabilityRow, invert]
    rw [if_neg hv]
    rfl
  have hrow0 : ∀ i, v_h.getD i 0 = 0 →
      satisfiabilityRow arith_cq range_cq wl_eval_4n wr_eval_4n wo_eval_4n
        (push_first_four w4_eval) pi_eval_4n v_h i = none := by
    intro i hv
    simp only [satisfiabilityRow, invert]
    rw [if_pos hv]
  refine ⟨?_, ?_, ?_⟩
  · intro h1 h2
    have hccse : (compute_circuit_satisfiability_equation size4n arith_cq range_cq
        wl_eval_4n wr_eval_4n wo_eval_4n w4_eval pi_eval_4n v_h).isSome :=
      optionMapRange_isSome _ _ (fun i hi => hrow i (h1 i hi))
    refine ⟨hccse, ?_⟩
    obtain ⟨t_1, ht1⟩ := Option.isSome_iff_exists.mp hccse
    unfold computeQuotient
    rw [ht1]
    exact optionMapRange_isSome _ _ (fun i hi => by
      simp only [invert]
      rw [if_neg (h2 i hi)]
      rfl)
  · intro i hi hv
    have hnone : compute_circuit_satisfiability_equation size4n arith_cq range_cq
        wl_eval_4n wr_eval_4n wo_eval_4n w4_eval pi_eval_4n v_h = none :=
      optionMapRange_eq_none _ _ i hi (hrow0 i hv)
    refine ⟨hnone, ?_⟩
    unfold computeQuotient
    rw [hnone]
  · intro i hi hv
    unfold computeQuotient
    cases hccse : compute_circuit_satisfiability_equation size4n arith_cq range_cq
        wl_eval_4n wr_eval_4n wo_eval_4n w4_eval pi_eval_4n v_h with
    | none => rfl
    | some t_1 =>
        exact optionMapRange_eq_none _ _ i hi (by
          simp only [invert]
          rw [if_pos hv])

/-- C8 witness: a four-row instance with all vanishing values `1` (both passes
succeed) and the same instance with a zero at index `0` (both abort). -/
theorem quotient_division_safety_witness :
    ((compute_circuit_satisfiability_equation 4
        (fun _ _ _ _ _ => (2 : ℚ)) (fun _ _ _ _ _ _ => (3 : ℚ))
        [0, 0, 0, 0] [0, 0, 0, 0] [0, 0, 0, 0] [0, 0, 0, 0] [5, 5, 5, 5]
        [1, 1, 1, 1]).isSome
      ∧ (computeQuotient 4
          (fun _ _ _ _ _ => (2 : ℚ)) (fun _ _ _ _ _ _ => (3 : ℚ))
          id id [0, 0, 0, 0] [0, 0, 0, 0]
          [0, 0, 0, 0] [0, 0, 0, 0] [0, 0, 0, 0] [0, 0, 0, 0] [5, 5, 5, 5]
          [1, 1, 1, 1] [1, 1, 1, 1]).isSome)
    ∧ (compute_circuit_satisfiability_equation 4
        (fun _ _ _ _ _ => (2 : ℚ)) (fun _ _ _ _ _ _ => (3 : ℚ))
        [0, 0, 0, 0] [0, 0, 0, 0] [0, 0, 0, 0] [0, 0, 0, 0] [5, 5, 5, 5]
        [0, 1, 1, 1] = none
      ∧ computeQuotient 4
          (fun _ _ _ _ _ => (2 : ℚ)) (fun _ _ _ _ _ _ => (3 : ℚ))
          id id [0, 0, 0, 0] [0, 0, 0, 0]
          [0, 0, 0, 0] [0, 0, 0, 0] [0, 0, 0, 0] [0, 0, 0, 0] [5, 5, 5, 5]
          [0, 1, 1, 1] [1, 1, 1, 1] = none) := by
  constructor
  · exact (quotient_division_safety 4 _ _ id id _ _ _ _ _ _ _ _ _).1
      (by decide) (by decide)
  · exact (quotient_division_safety 4 _ _ id id _ _ _ _ _ _ _ _ _).2.1
      0 (by decide) (by decide)

/-- C1 (amended): at each extended-domain index `i` the satisfiability
numerator — the value the quotient row divides by the vanishing value — equals
the arithmetic widget contribution plus the range widget contribution plus the
public-input evaluation at `i`; the logic and curve-addition families do not
contribute to this assembler. -/
theorem circuit_satisfiability_numerator (size4n : Nat)
    (arith_cq : Nat → F → F → F → F → F)
    (range_cq : Nat → F → F → F → F → F → F)
    (wl_eval_4n wr_eval_4n wo_eval_4n w4_eval pi_eval_4n v_h : List F)
    (t_1 : List F)
    (hsome : compute_circuit_satisfiability_equation size4n arith_cq range_cq
      wl_eval_4n wr_eval_4n wo_eval_4n w4_eval pi_eval_4n v_h = some t_1)
    (i : Nat) (hi : i < size4n) (hvh : v_h.getD i 0 ≠ 0) :
    t_1.getD i 0 * v_h.getD i 0
      = arith_cq i (wl_eval_4n.getD i 0) (wr_eval_4n.getD i 0)
          (wo_eval_4n.getD i 0) ((push_first_four w4_eval).getD i 0)
        + range_cq i (wl_eval_4n.getD i 0) (wr_eval_4n.getD i 0)
            (wo_eval_4n.getD i 0) ((push_first_four w4_eval).getD i 0)
            ((push_first_four w4_eval).getD (i + 4) 0)
        + pi_eval_4n.getD i 0 := by
  obtain ⟨-, hval⟩ :=
    optionMapRange_getD _ (0 : F) _ _ hsome
  have h := hval i hi
  simp only [satisfiabilityRow, invert, if_neg hvh, Option.some.injEq] at h
  rw [← h, mul_assoc, inv_mul_cancel₀ hvh, mul_one]

/-- C1 witness: a concrete four-row instance with constant widget
contributions `2` and `3` and public input `5`. -/
theorem circuit_satisfiability_numerator_witness :
    ([((2 : ℚ) + 3 + 5) * (1 : ℚ)⁻¹, ((2 : ℚ) + 3 + 5) * (1 : ℚ)⁻¹,
        ((2 : ℚ) + 3 + 5) * (1 : ℚ)⁻¹, ((2 : ℚ) + 3 + 5) * (1 : ℚ)⁻¹].getD 0 0)
        * ([(1 : ℚ), 1, 1, 1].getD 0 0)
      = (fun _ _ _ _ _ => (2 : ℚ)) 0 ([(0 : ℚ), 0, 0, 0].getD 0 0)
          ([(0 : ℚ), 0, 0, 0].getD 0 0) ([(0 : ℚ), 0, 0, 0].getD 0 0)
          ((push_first_four [(0 : ℚ), 0, 0, 0]).getD 0 0)
        + (fun _ _ _ _ _ _ => (3 : ℚ)) 0 ([(0 : ℚ), 0, 0, 0].getD 0 0)
            ([(0 : ℚ), 0, 0, 0].getD 0 0) ([(0 : ℚ), 0, 0, 0].getD 0 0)
            ((push_first_four [(0 : ℚ), 0, 0, 0]).getD 0 0)
            ((push_first_four [(0 : ℚ), 0, 0, 0]).getD (0 + 4) 0)
        + [(5 : ℚ), 5, 5, 5].getD 0 0 := by
  exact circuit_satisfiability_numerator 4
    (fun _ _ _ _ _ => (2 : ℚ)) (fun _ _ _ _ _ _ => (3 : ℚ))
    [0, 0, 0, 0] [0, 0, 0, 0] [0, 0, 0, 0] [0, 0, 0, 0] [5, 5, 5, 5]
    [1, 1, 1, 1]
    [((2 : ℚ) + 3 + 5) * (1 : ℚ)⁻¹, ((2 : ℚ) + 3 + 5) * (1 : ℚ)⁻¹,
      ((2 : ℚ) + 3 + 5) * (1 : ℚ)⁻¹, ((2 : ℚ) + 3 + 5) * (1 : ℚ)⁻¹]
    (by rfl) 0 (by decide) (by decide)

/-- C1 counterexample: at index `0` of a concrete instance the numerator
computed by the source — `10`, from arithmetic contribution `2`, range
contribution `3` and public input `5` — differs from the sum over all four
widget families demanded by the claim once the logic widget contribution `7`
is nonzero. -/
theorem circuit_satisfiability_four_widget_counterexample :
    ((compute_circuit_satisfiability_equation 4
          (fun _ _ _ _ _ => (2 : ℚ)) (fun _ _ _ _ _ _ => (3 : ℚ))
          [0, 0, 0, 0] [0, 0, 0, 0] [0, 0, 0, 0] [0, 0, 0, 0] [5, 5, 5, 5]
          [1, 1, 1, 1]).getD []).getD 0 0 * ([(1 : ℚ), 1, 1, 1].getD 0 0)
      ≠ specFourWidgetNumerator 2 3 7 0 5 := by
  have hc : compute_circuit_satisfiability_equation 4
      (fun _ _ _ _ _ => (2 : ℚ)) (fun _ _ _ _ _ _ => (3 : ℚ))
      [0, 0, 0, 0] [0, 0, 0, 0] [0, 0, 0, 0] [0, 0, 0, 0] [5, 5, 5, 5]
      [1, 1, 1, 1]
      = some [((2 : ℚ) + 3 + 5) * (1 : ℚ)⁻¹, ((2 : ℚ) + 3 + 5) * (1 : ℚ)⁻¹,
          ((2 : ℚ) + 3 + 5) * (1 : ℚ)⁻¹, ((2 : ℚ) + 3 + 5) * (1 : ℚ)⁻¹] := rfl
  rw [hc]
  simp only [Option.getD_some, specFourWidgetNumerator]
  norm_num

theorem big_add_gate_colsOk (cs cs' : StandardComposer F) (v : Variable) (m : Nat)
    (a b c : Variable) (dOpt : Option Variable) (ql qr qo q4 qc : F) (pi : Option F)
    (h : big_add_gate cs a b c dOpt ql qr qo q4 qc pi = some (cs', v))
    (hok : colsOk cs m) : colsOk cs' (m + 1) := by
  unfold big_add_gate at h
  cases hpi : insertPI cs.public_inputs_sparse_store cs.n pi with
  | none => rw [hpi] at h; exact absurd h (by simp)
  | some store =>
      rw [hpi] at h
      simp only [Option.some.injEq, Prod.mk.injEq] at h
      obtain ⟨h1, -⟩ := h
      subst h1
      obtain ⟨h1, h2, h3, h4, h5, h6, h7, h8, h9, h10, h11, h12, h13, h14, h15, h16⟩ := hok
      simp [colsOk, h1, h2, h3, h4, h5, h6, h7, h8, h9, h10, h11, h12, h13, h14, h15, h16]

theorem big_mul_gate_colsOk (cs cs' : StandardComposer F) (v : Variable) (m : Nat)
    (a b c : Variable) (dOpt : Option Variable) (qm qo qc q4 : F) (pi : Option F)
    (h : big_mul_gate cs a b c dOpt qm qo qc q4 pi = some (cs', v))
    (hok : colsOk cs m) : colsOk cs' (m + 1) := by
  unfold big_mul_gate at h
  cases hpi : insertPI cs.public_inputs_sparse_store cs.n pi with
  | none => rw [hpi] at h; exact absurd h (by simp)
  | some store =>
      rw [hpi] at h
      simp only [Option.some.injEq, Prod.mk.injEq] at h
      obtain ⟨h1, -⟩ := h
      subst h1
      obtain ⟨h1, h2, h3, h4, h5, h6, h7, h8, h9, h10, h11, h12, h13, h14, h15, h16⟩ := hok
      simp [colsOk, h1, h2, h3, h4, h5, h6, h7, h8, h9, h10, h11, h12, h13, h14, h15, h16]

theorem big_arith_gate_colsOk (cs cs' : StandardComposer F) (v : Variable) (m : Nat)
    (a b c : Variable) (dOpt : Option Variable) (qm ql qr qo qc q4 : F) (pi : Option F)
    (h : big_arith_gate cs a b c dOpt qm ql qr qo qc q4 pi = some (cs', v))
    (hok : colsOk cs m) : colsOk cs' (m + 1) := by
  unfold big_arith_gate at h
  cases hpi : insertPI cs.public_inputs_sparse_store cs.n pi with
  | none => rw [hpi] at h; exact absurd h (by simp)
  | some store =>
      rw [hpi] at h
      simp only [Option.some.injEq, Prod.mk.injEq] at h
      obtain ⟨h1, -⟩ := h
      subst h1
      obtain ⟨h1, h2, h3, h4, h5, h6, h7, h8, h9, h10, h11, h12, h13, h14, h15, h16⟩ := hok
      simp [colsOk, h1, h2, h3, h4, h5, h6, h7, h8, h9, h10, h11, h12, h13, h14, h15, h16]

theorem applyGateCall_colsOk (cs cs' : StandardComposer F) (g : GateCall F)
    (v : Variable) (m : Nat) (h : applyGateCall cs g = some (cs', v))
    (hok : colsOk cs m) : colsOk cs' (m + 1) := by
  cases g with
  | addGate a b c ql qr qo qc pi =>
      exact big_add_gate_colsOk _ _ _ _ _ _ _ _ _ _ _ _ _ _ h hok
  | bigAddGate a b c d ql qr qo q4 qc pi =>
      exact big_add_gate_colsOk _ _ _ _ _ _ _ _ _ _ _ _ _ _ h hok
  | mulGate a b c qm qo qc pi =>
      exact big_mul_gate_colsOk _ _ _ _ _ _ _ _ _ _ _ _ _ h hok
  | bigMulGate a b c d qm qo qc q4 pi =>
      exact big_mul_gate_colsOk _ _ _ _ _ _ _ _ _ _ _ _ _ h hok
  | bigArithGate a b c d qm ql qr qo qc q4 pi =>
      exact big_arith_gate_colsOk _ _ _ _ _ _ _ _ _ _ _ _ _ _ _ h hok

theorem runGateCalls_colsOk (gs : List (GateCall F)) (cs cs' : StandardComposer F)
    (m : Nat) (h : runGateCalls cs gs = some cs') (hok : colsOk cs m) :
    colsOk cs' (m + gs.length) := by
  induction gs generalizing cs m with
  | nil =>
      simp only [runGateCalls, Option.some.injEq] at h
      subst h
      simpa using hok
  | cons g gs ih =>
      unfold runGateCalls at h
      cases hap : applyGateCall cs g with
      | none => rw [hap] at h; exact absurd h (by simp)
      | some p =>
          rw [hap] at h
          have hx : m + (g :: gs).length = m + 1 + gs.length := by
            simp [List.length_cons]
            omega
          rw [hx]
          exact ih p.1 (m + 1) h (applyGateCall_colsOk _ _ _ _ _ hap hok)

/-- C4: a gate-construction call on a composer whose fifteen columns all have
length equal to the gate counter appends exactly one entry to every column and
increments the counter; after any successful sequence of `k` calls all columns
have length `initial + k`. -/
theorem gate_construction_column_lengths (cs : StandardComposer F) (m : Nat)
    (hok : colsOk cs m) :
    (∀ g cs' v, applyGateCall cs g = some (cs', v) → colsOk cs' (m + 1))
    ∧ (∀ gs cs', runGateCalls cs gs = some cs' → colsOk cs' (m + gs.length)) :=
  ⟨fun _ cs' v h => applyGateCall_colsOk _ cs' _ v _ h hok,
   fun gs cs' h => runGateCalls_colsOk gs _ cs' _ h hok⟩

/-- C4 witness: running the two-call sequence `gcallsW` on the empty-column
composer `csW` gives every column length `2`. -/
theorem gate_construction_column_lengths_witness :
    colsOk csRun (0 + 2) :=
  (gate_construction_column_lengths csW 0
      ⟨rfl, rfl, rfl, rfl, rfl, rfl, rfl, rfl, rfl, rfl, rfl, rfl, rfl, rfl, rfl, rfl⟩).2
    gcallsW csRun (by rfl)

theorem insertPI_dup (s : List (Nat × F)) (r : Nat) (v : F)
    (h : (storeLookup s r).isSome) : insertPI s r (some v) = none := by
  simp [insertPI, h]

theorem insertPI_fresh (s : List (Nat × F)) (r : Nat) (v : F)
    (h : storeLookup s r = none) : insertPI s r (some v) = some (s ++ [(r, v)]) := by
  simp [insertPI, h]

theorem storeLookup_append_self (s : List (Nat × F)) (r : Nat) (v : F)
    (h : storeLookup s r = none) : storeLookup (s ++ [(r, v)]) r = some v := by
  have hf : s.find? (fun p => p.1 == r) = none := by
    cases hf : s.find? (fun p => p.1 == r) with
    | none => rfl
    | some p =>
        unfold storeLookup at h
        rw [hf] at h
        exact absurd h (by simp)
  unfold storeLookup
  rw [List.find?_append, hf]
  simp

theorem notMem_keys_of_storeLookup_none (s : List (Nat × F)) (r : Nat)
    (h : storeLookup s r = none) : r ∉ s.map Prod.fst := by
  intro hmem
  obtain ⟨p, hp, hfst⟩ := List.mem_map.mp hmem
  have hf : s.find? (fun p => p.1 == r) = none := by
    cases hf : s.find? (fun p => p.1 == r) with
    | none => rfl
    | some q =>
        unfold storeLookup at h
        rw [hf] at h
        exact absurd h (by simp)
  have := List.find?_eq_none.mp hf p hp
  simp [hfst] at this

theorem insertPI_nodup (s s' : List (Nat × F)) (r : Nat) (pi : Option F)
    (h : insertPI s r pi = some s') (hnd : storeKeysNodup s) :
    storeKeysNodup s' := by
  cases pi with
  | none =>
      simp only [insertPI, Option.some.injEq] at h
      subst h
      exact hnd
  | some v =>
      by_cases hl : (storeLookup s r).isSome
      · rw [insertPI_dup _ _ _ hl] at h
        exact absurd h (by simp)
      · have hln : storeLookup s r = none := Option.not_isSome_iff_eq_none.mp hl
        rw [insertPI_fresh _ _ _ hln] at h
        simp only [Option.some.injEq] at h
        subst h
        unfold storeKeysNodup at hnd ⊢
        rw [List.map_append, List.nodup_append]
        refine ⟨hnd, by simp, ?_⟩
        intro x hx hx'
        simp only [List.map_cons, List.map_nil, List.mem_singleton] at hx'
        exact notMem_keys_of_storeLookup_none s r hln (hx' ▸ hx)

theorem big_add_gate_store (cs cs' : StandardComposer F) (r : Variable)
    (a b c : Variable) (dOpt : Option Variable) (ql qr qo q4 qc : F) (pi : Option F)
    (h : big_add_gate cs a b c dOpt ql qr qo q4 qc pi = some (cs', r)) :
    insertPI cs.public_inputs_sparse_store cs.n pi
      = some cs'.public_inputs_sparse_store := by
  unfold big_add_gate at h
  cases hpi : insertPI cs.public_inputs_sparse_store cs.n pi with
  | none => rw [hpi] at h; exact absurd h (by simp)
  | some store =>
      rw [hpi] at h
      simp only [Option.some.injEq, Prod.mk.injEq] at h
      obtain ⟨h1, -⟩ := h
      subst h1
      rfl

theorem big_mul_gate_store (cs cs' : StandardComposer F) (r : Variable)
    (a b c : Variable) (dOpt : Option Variable) (qm qo qc q4 : F) (pi : Option F)
    (h : big_mul_gate cs a b c dOpt qm qo qc q4 pi = some (cs', r)) :
    insertPI cs.public_inputs_sparse_store cs.n pi
      = some cs'.public_inputs_sparse_store := by
  unfold big_mul_gate at h
  cases hpi : insertPI cs.public_inputs_sparse_store cs.n pi with
  | none => rw [hpi] at h; exact absurd h (by simp)
  | some store =>
      rw [hpi] at h
      simp only [Option.some.injEq, Prod.mk.injEq] at h
      obtain ⟨h1, -⟩ := h
      subst h1
      rfl

theorem big_arith_gate_store (cs cs' : StandardComposer F) (r : Variable)
    (a b c : Variable) (dOpt : Option Variable) (qm ql qr qo qc q4 : F) (pi : Option F)
    (h : big_arith_gate cs a b c dOpt qm ql qr qo qc q4 pi = some (cs', r)) :
    insertPI cs.public_inputs_sparse_store cs.n pi
      = some cs'.public_inputs_sparse_store := by
  unfold big_arith_gate at h
  cases hpi : insertPI cs.public_inputs_sparse_store cs.n pi with
  | none => rw [hpi] at h; exact absurd h (by simp)
  | some store =>
      rw [hpi] at h
      simp only [Option.some.injEq, Prod.mk.injEq] at h
      obtain ⟨h1, -⟩ := h
      subst h1
      rfl

theorem applyGateCall_store (cs cs' : StandardComposer F) (g : GateCall F)
    (r : Variable) (h : applyGateCall cs g = some (cs', r)) :
    insertPI cs.public_inputs_sparse_store cs.n (gatePI g)
      = some cs'.public_inputs_sparse_store := by
  cases g with
  | addGate a b c ql qr qo qc pi =>
      exact big_add_gate_store _ _ _ _ _ _ _ _ _ _ _ _ _ h
  | bigAddGate a b c d ql qr qo q4 qc pi =>
      exact big_add_gate_store _ _ _ _ _ _ _ _ _ _ _ _ _ h
  | mulGate a b c qm qo qc pi =>
      exact big_mul_gate_store _ _ _ _ _ _ _ _ _ _ _ _ h
  | bigMulGate a b c d qm qo qc q4 pi =>
      exact big_mul_gate_store _ _ _ _ _ _ _ _ _ _ _ _ h
  | bigArithGate a b c d qm ql qr qo qc q4 pi =>
      exact big_arith_gate_store _ _ _ _ _ _ _ _ _ _ _ _ _ _ h

/-- C9: supplying a public input for a row that already has an entry makes
every gate builder abort; on a fresh row the value is appended at the current
row index and lookup finds it; every successful gate-construction call
preserves the at-most-one-entry-per-row invariant of the store. -/
theorem public_input_store_discipline (cs : StandardComposer F) :
    ((storeLookup cs.public_inputs_sparse_store cs.n).isSome →
      (∀ a b c dOpt (ql qr qo q4 qc : F) (v : F),
          big_add_gate cs a b c dOpt ql qr qo q4 qc (some v) = none)
      ∧ (∀ a b c dOpt (qm qo qc q4 : F) (v : F),
          big_mul_gate cs a b c dOpt qm qo qc q4 (some v) = none)
      ∧ (∀ a b c dOpt (qm ql qr qo qc q4 : F) (v : F),
          big_arith_gate cs a b c dOpt qm ql qr qo qc q4 (some v) = none))
    ∧ (storeLookup cs.public_inputs_sparse_store cs.n = none →
      ∀ g cs' r, applyGateCall cs g = some (cs', r) → ∀ v, gatePI g = some v →
        cs'.public_inputs_sparse_store
            = cs.public_inputs_sparse_store ++ [(cs.n, v)]
          ∧ storeLookup cs'.public_inputs_sparse_store cs.n = some v)
    ∧ (∀ g cs' r, applyGateCall cs g = some (cs', r) →
        storeKeysNodup cs.public_inputs_sparse_store →
        storeKeysNodup cs'.public_inputs_sparse_store) := by
  refine ⟨fun hdup => ⟨?_, ?_, ?_⟩, ?_, ?_⟩
  · intro a b c dOpt ql qr qo q4 qc v
    unfold big_add_gate
    rw [insertPI_dup _ _ _ hdup]
  · intro a b c dOpt qm qo qc q4 v
    unfold big_mul_gate
    rw [insertPI_dup _ _ _ hdup]
  · intro a b c dOpt qm ql qr qo qc q4 v
    unfold big_arith_gate
    rw [insertPI_dup _ _ _ hdup]
  · intro hfresh g cs' r h v hv
    have hst := applyGateCall_store _ _ _ _ h
    rw [hv, insertPI_fresh _ _ _ hfresh] at hst
    simp only [Option.some.injEq] at hst
    refine ⟨hst.symm, ?_⟩
    rw [← hst]
    exact storeLookup_append_self _ _ _ hfresh
  · intro g cs' r h hnd
    exact insertPI_nodup _ _ _ _ (applyGateCall_store _ _ _ _ h) hnd

/-- C9 witness: on `csP` (row `0` already has a public input) a `big_add_gate`
with a public input aborts; on `csW` (fresh row) the value `7` is recorded at
row `0` and the one-entry-per-row invariant holds afterwards. -/
theorem public_input_store_discipline_witness :
    big_add_gate csP 1 2 0 none 1 1 1 0 0 (some (7 : ℚ)) = none
    ∧ (csF.public_inputs_sparse_store
          = csW.public_inputs_sparse_store ++ [(csW.n, (7 : ℚ))]
        ∧ storeLookup csF.public_inputs_sparse_store csW.n = some (7 : ℚ))
    ∧ storeKeysNodup csF.public_inputs_sparse_store := by
  refine ⟨?_, ?_, ?_⟩
  · exact ((public_input_store_discipline csP).1 (by rfl)).1 1 2 0 none 1 1 1 0 0 7
  · exact (public_input_store_discipline csW).2.1 rfl
      (GateCall.bigAddGate 1 2 0 none 1 1 1 0 0 (some 7)) csF 0 rfl 7 rfl
  · exact (public_input_store_discipline csW).2.2
      (GateCall.bigAddGate 1 2 0 none 1 1 1 0 0 (some 7)) csF 0 rfl
      (by simp [storeKeysNodup, csW])

/-- C10 helper: the non-arithmetic selector rows appended by each builder. -/
theorem big_add_gate_selectors (cs cs' : StandardComposer F) (r : Variable)
    (a b c : Variable) (dOpt : Option Variable) (ql qr qo q4 qc : F) (pi : Option F)
    (h : big_add_gate cs a b c dOpt ql qr qo q4 qc pi = some (cs', r)) :
    cs'.q_arith = cs.q_arith ++ [1] ∧ cs'.q_range = cs.q_range ++ [0]
    ∧ cs'.q_logic = cs.q_logic ++ [0]
    ∧ cs'.q_fixed_group_add = cs.q_fixed_group_add ++ [0]
    ∧ cs'.q_variable_group_add = cs.q_variable_group_add ++ [0] := by
  unfold big_add_gate at h
  cases hpi : insertPI cs.public_inputs_sparse_store cs.n pi with
  | none => rw [hpi] at h; exact absurd h (by simp)
  | some store =>
      rw [hpi] at h
      simp only [Option.some.injEq, Prod.mk.injEq] at h
      obtain ⟨h1, -⟩ := h
      subst h1
      exact ⟨rfl, rfl, rfl, rfl, rfl⟩

theorem big_mul_gate_selectors (cs cs' : StandardComposer F) (r : Variable)
    (a b c : Variable) (dOpt : Option Variable) (qm qo qc q4 : F) (pi : Option F)
    (h : big_mul_gate cs a b c dOpt qm qo qc q4 pi = some (cs', r)) :
    cs'.q_arith = cs.q_arith ++ [1] ∧ cs'.q_range = cs.q_range ++ [0]
    ∧ cs'.q_logic = cs.q_logic ++ [0]
    ∧ cs'.q_fixed_group_add = cs.q_fixed_group_add ++ [0]
    ∧ cs'.q_variable_group_add = cs.q_variable_group_add ++ [0] := by
  unfold big_mul_gate at h
  cases hpi : insertPI cs.public_inputs_sparse_store cs.n pi with
  | none => rw [hpi] at h; exact absurd h (by simp)
  | some store =>
      rw [hpi] at h
      simp only [Option.some.injEq, Prod.mk.injEq] at h
      obtain ⟨h1, -⟩ := h
      subst h1
      exact ⟨rfl, rfl, rfl, rfl, rfl⟩

theorem big_arith_gate_selectors (cs cs' : StandardComposer F) (r : Variable)
    (a b c : Variable) (dOpt : Option Variable) (qm ql qr qo qc q4 : F) (pi : Option F)
    (h : big_arith_gate cs a b c dOpt qm ql qr qo qc q4 pi = some (cs', r)) :
    cs'.q_arith = cs.q_arith ++ [1] ∧ cs'.q_range = cs.q_range ++ [0]
    ∧ cs'.q_logic = cs.q_logic ++ [0]
    ∧ cs'.q_fixed_group_add = cs.q_fixed_group_add ++ [0]
    ∧ cs'.q_variable_group_add = cs.q_variable_group_add ++ [0] := by
  unfold big_arith_gate at h
  cases hpi : insertPI cs.public_inputs_sparse_store cs.n pi with
  | none => rw [hpi] at h; exact absurd h (by simp)
  | some store =>
      rw [hpi] at h
      simp only [Option.some.injEq, Prod.mk.injEq] at h
      obtain ⟨h1, -⟩ := h
      subst h1
      exact ⟨rfl, rfl, rfl, rfl, rfl⟩

/-- C10: every arithmetic-family gate-construction call appends `1` to the
`q_arith` selector column and `0` to each of `q_range`, `q_logic`,
`q_fixed_group_add` and `q_variable_group_add`, so an arithmetic row never
enables another gate family. -/
theorem arithmetic_gate_selector_exclusivity (cs : StandardComposer F)
    (g : GateCall F) (cs' : StandardComposer F) (r : Variable)
    (h : applyGateCall cs g = some (cs', r)) :
    cs'.q_arith = cs.q_arith ++ [1] ∧ cs'.q_range = cs.q_range ++ [0]
    ∧ cs'.q_logic = cs.q_logic ++ [0]
    ∧ cs'.q_fixed_group_add = cs.q_fixed_group_add ++ [0]
    ∧ cs'.q_variable_group_add = cs.q_variable_group_add ++ [0] := by
  cases g with
  | addGate a b c ql qr qo qc pi =>
      exact big_add_gate_selectors _ _ _ _ _ _ _ _ _ _ _ _ _ h
  | bigAddGate a b c d ql qr qo q4 qc pi =>
      exact big_add_gate_selectors _ _ _ _ _ _ _ _ _ _ _ _ _ h
  | mulGate a b c qm qo qc pi =>
      exact big_mul_gate_selectors _ _ _ _ _ _ _ _ _ _ _ _ h
  | bigMulGate a b c d qm qo qc q4 pi =>
      exact big_mul_gate_selectors _ _ _ _ _ _ _ _ _ _ _ _ h
  | bigArithGate a b c d qm ql qr qo qc q4 pi =>
      exact big_arith_gate_selectors _ _ _ _ _ _ _ _ _ _ _ _ _ _ h

/-- C10 witness: the single call `gateW` on `csW`. -/
theorem arithmetic_gate_selector_exclusivity_witness :
    csG.q_arith = csW.q_arith ++ [1] ∧ csG.q_range = csW.q_range ++ [0]
    ∧ csG.q_logic = csW.q_logic ++ [0]
    ∧ csG.q_fixed_group_add = csW.q_fixed_group_add ++ [0]
    ∧ csG.q_variable_group_add = csW.q_variable_group_add ++ [0] :=
  arithmetic_gate_selector_exclusivity csW gateW csG 0 rfl

/-- C2: every computing wrapper resolves the witness values of its input
variables, allocates a fresh output variable bound to the gate expression
evaluated on those values (with an absent public input treated as zero),
passes `q_o = -1` to the corresponding builder, and the appended row satisfies
`q_m*(a*b) + q_l*a + q_r*b + q_o*c + q_4*d + q_c + PI = 0` with the selectors
the wrapper fixes. -/
theorem computing_wrappers_satisfy_their_gate (cs : StandardComposer F)
    (q_m q_l q_r q_4 q_c : F) (a b d : Variable) (av bv dv zv : F)
    (pi : Option F)
    (ha : cs.vars.get? a = some av) (hb : cs.vars.get? b = some bv)
    (hd : cs.vars.get? d = some dv)
    (hz : cs.vars.get? cs.zero_var = some zv)
    (hfresh : storeLookup cs.public_inputs_sparse_store cs.n = none) :
    (∃ cs' cv, big_arith cs q_m a b q_l q_r (some (q_4, d)) q_c pi
        = some (cs', cs.vars.length)
      ∧ cs'.vars.get? cs.vars.length = some cv
      ∧ cv = q_m * av * bv + q_l * av + q_r * bv + q_4 * dv + q_c + pi.getD 0
      ∧ cs'.q_o = cs.q_o ++ [-1]
      ∧ q_m * (av * bv) + q_l * av + q_r * bv + (-1) * cv + q_4 * dv + q_c
          + pi.getD 0 = 0)
    ∧ (∃ cs' cv, big_add cs (q_l, a) (q_r, b) (some (q_4, d)) q_c pi
        = some (cs', cs.vars.length)
      ∧ cs'.vars.get? cs.vars.length = some cv
      ∧ cv = q_l * av + q_r * bv + q_4 * dv + q_c + pi.getD 0
      ∧ cs'.q_o = cs.q_o ++ [-1]
      ∧ q_l * av + q_r * bv + (-1) * cv + q_4 * dv + q_c + pi.getD 0 = 0)
    ∧ (∃ cs' cv, big_mul cs q_m a b (some (q_4, d)) q_c pi
        = some (cs', cs.vars.length)
      ∧ cs'.vars.get? cs.vars.length = some cv
      ∧ cv = q_m * av * bv + q_4 * dv + q_c + pi.getD 0
      ∧ cs'.q_o = cs.q_o ++ [-1]
      ∧ q_m * (av * bv) + (-1) * cv + q_4 * dv + q_c + pi.getD 0 = 0)
    ∧ (∃ cs' cv, add cs (q_l, a) (q_r, b) q_c pi = some (cs', cs.vars.length)
      ∧ cs'.vars.get? cs.vars.length = some cv
      ∧ cv = q_l * av + q_r * bv + q_c + pi.getD 0
      ∧ cs'.q_o = cs.q_o ++ [-1]
      ∧ q_l * av + q_r * bv + (-1) * cv + q_c + pi.getD 0 = 0)
    ∧ (∃ cs' cv, mul cs q_m a b q_c pi = some (cs', cs.vars.length)
      ∧ cs'.vars.get? cs.vars.length = some cv
      ∧ cv = q_m * av * bv + q_c + pi.getD 0
      ∧ cs'.q_o = cs.q_o ++ [-1]
      ∧ q_m * (av * bv) + (-1) * cv + q_c + pi.getD 0 = 0) := by
  obtain ⟨st, hins⟩ : ∃ st, insertPI cs.public_inputs_sparse_store cs.n pi
      = some st := by
    cases pi with
    | none => exact ⟨_, rfl⟩
    | some v => exact ⟨_, insertPI_fresh _ _ _ hfresh⟩
  refine ⟨?_, ?_, ?_, ?_, ?_⟩
  · simp only [big_arith, ha, hb, hd, Option.getD_some, add_input,
      big_arith_gate, hins]
    exact ⟨_, _, rfl, List.get?_concat_length _ _, by ring, rfl, by ring⟩
  · simp only [big_add, ha, hb, hd, Option.getD_some, add_input,
      big_add_gate, hins]
    exact ⟨_, _, rfl, List.get?_concat_length _ _, by ring, rfl, by ring⟩
  · simp only [big_mul, ha, hb, hd, Option.getD_some, add_input,
      big_mul_gate, hins]
    exact ⟨_, _, rfl, List.get?_concat_length _ _, by ring, rfl, by ring⟩
  · simp only [add, big_add, ha, hb, hz, Option.getD_none, add_input,
      big_add_gate, hins]
    exact ⟨_, _, rfl, List.get?_concat_length _ _, by ring, rfl, by ring⟩
  · simp only [mul, big_mul, ha, hb, hz, Option.getD_none, add_input,
      big_mul_gate, hins]
    exact ⟨_, _, rfl, List.get?_concat_length _ _, by ring, rfl, by ring⟩

/-- C2 witness: `big_arith` on `csW` with `a = 4`, `b = 5`, `q_m = 6`,
`q_l = 7`, `q_r = 8`, `d = 9`, `q_4 = 10`, `q_c = 11` binds the returned
fresh variable to `289`. -/
theorem computing_wrappers_satisfy_their_gate_witness :
    ∃ cs' cv, big_arith csW 6 1 2 7 8 (some ((10 : ℚ), 3)) 11 none
        = some (cs', 4)
      ∧ cs'.vars.get? 4 = some cv ∧ cv = 289 := by
  obtain ⟨cs', cv, h1, h2, h3, -, -⟩ :=
    (computing_wrappers_satisfy_their_gate csW 6 7 8 10 11 1 2 3 4 5 9 0 none
      rfl rfl rfl rfl rfl).1
  refine ⟨cs', cv, h1, h2, ?_⟩
  rw [h3]
  norm_num

end ArkPlonk
